import Mathlib

/-!
Shallow embedding of the FluczakSignalBus repository (Delegate.hpp, SignalBus.hpp).

Modelling conventions:
- C++ object pointers are modelled as `Nat`, with `0` standing for `nullptr`
  (`m_instance` of `Delegate` is `const void*` initialised to `nullptr`).
- The identity of a template-instantiated trampoline lambda is modelled by
  `StubId`: per the source, each `Bind` variant installs a lambda whose identity
  is determined by the (class, member-function) template pair (or the free
  function), and `Matches` compares the stored stub against the lambda generated
  for the same pair, so stub equality is equality of these identities.
- `std::type_index` keys of the bus registry are modelled as `Nat`; the
  `std::unordered_map` is modelled as an association list with unique keys,
  since the claims only concern per-key lookup, insertion and erasure.
- A thrown C++ exception is modelled as an `Except.error` result.
- Handler invocations are not executed (subscriber code is outside the
  repository); `Emit` instead returns the ordered trace of dispatches the
  trampolines would perform, each recording the target and the argument value.
-/

namespace FluczakSignalBus

/-- Identity of the trampoline installed in `Delegate::m_stub`.
`noStub` is the default `nullptr`; the three other constructors are the lambdas
installed by `Bind<Function>`, `Bind<Class, MemberFunction>` (const member) and
`Bind<Class, MemberFunction>` (non-const member), keyed by their template
arguments. -/
inductive StubId where
  | noStub : StubId
  | freeFn (f : Nat) : StubId
  | constMember (cls mem : Nat) : StubId
  | member (cls mem : Nat) : StubId
  deriving DecidableEq, Repr

/-- `Delegate<R(Args...)>`: the stored instance pointer and stub
(Delegate.hpp lines 136-139). Default-constructed state is
`m_instance = nullptr`, `m_stub = nullptr`. -/
structure Delegate where
  m_instance : Nat := 0
  m_stub : StubId := StubId.noStub
  deriving DecidableEq, Repr

/-- The exception type `BadDelegateCall` (Delegate.hpp line 8). -/
inductive DelegateError where
  | badDelegateCall : DelegateError
  deriving DecidableEq, Repr

/-- One dispatch performed by an installed trampoline: which target runs and
with which argument value. -/
inductive Invocation (A : Type) where
  | freeCall (f : Nat) (arg : A) : Invocation A
  | constMemberCall (cls mem instPtr : Nat) (arg : A) : Invocation A
  | memberCall (cls mem instPtr : Nat) (arg : A) : Invocation A
  deriving DecidableEq, Repr

namespace Delegate

/-- `Delegate::operator()` (Delegate.hpp lines 61-68): throws `BadDelegateCall`
when `m_stub == nullptr`, otherwise calls `(*m_stub)(m_instance, args...)`;
the installed trampoline then dispatches to its target. -/
def callOp {A : Type} (d : Delegate) (arg : A) : Except DelegateError (Invocation A) :=
  match d.m_stub with
  | StubId.noStub => Except.error DelegateError.badDelegateCall
  | StubId.freeFn f => Except.ok (Invocation.freeCall f arg)
  | StubId.constMember c m => Except.ok (Invocation.constMemberCall c m d.m_instance arg)
  | StubId.member c m => Except.ok (Invocation.memberCall c m d.m_instance arg)

/-- `Delegate::Matches<Class, MemberFunction>` (Delegate.hpp lines 75-82):
`m_instance == instance && m_stub == <the non-const member lambda for
(Class, MemberFunction)>`. -/
def MatchesQ (d : Delegate) (cls mem instPtr : Nat) : Bool :=
  d.m_instance == instPtr && d.m_stub == StubId.member cls mem

/-- `Delegate::Bind<Function>` (Delegate.hpp lines 86-93): sets
`m_instance = nullptr` and installs the free-function trampoline. -/
def BindFree (d : Delegate) (f : Nat) : Delegate :=
  { d with m_instance := 0, m_stub := StubId.freeFn f }

/-- `Delegate::Bind<Class, MemberFunction>` for a const member function
(Delegate.hpp lines 99-108): stores the instance pointer and installs the
const-member trampoline. -/
def BindConstMember (d : Delegate) (cls mem instPtr : Nat) : Delegate :=
  { d with m_instance := instPtr, m_stub := StubId.constMember cls mem }

/-- `Delegate::Bind<Class, MemberFunction>` for a non-const member function
(Delegate.hpp lines 114-123): stores the instance pointer and installs the
non-const-member trampoline. -/
def BindMember (d : Delegate) (cls mem instPtr : Nat) : Delegate :=
  { d with m_instance := instPtr, m_stub := StubId.member cls mem }

end Delegate

/-- The three `Bind` overloads of `Delegate`, as one action type. -/
inductive BindAction where
  | freeFn (f : Nat) : BindAction
  | constMember (cls mem instPtr : Nat) : BindAction
  | member (cls mem instPtr : Nat) : BindAction
  deriving DecidableEq, Repr

/-- Apply one of the three `Bind` overloads to a delegate. -/
def applyBind (d : Delegate) (a : BindAction) : Delegate :=
  match a with
  | BindAction.freeFn f => d.BindFree f
  | BindAction.constMember c m i => d.BindConstMember c m i
  | BindAction.member c m i => d.BindMember c m i

/-- The dispatch a freshly applied `Bind` overload leads to on invocation with
argument `arg`: determined by the action alone. -/
def targetOf {A : Type} (a : BindAction) (arg : A) : Invocation A :=
  match a with
  | BindAction.freeFn f => Invocation.freeCall f arg
  | BindAction.constMember c m i => Invocation.constMemberCall c m i arg
  | BindAction.member c m i => Invocation.memberCall c m i arg

/-- `DelegateHandle<T>` as stored behind `IDelegateHandle` in the bus
(Delegate.hpp lines 18-43): the event type `T` (the `dynamic_cast` target)
and the wrapped delegate. -/
structure Handle where
  eventType : Nat
  delegate : Delegate
  deriving DecidableEq, Repr

/-- `DelegateHandle<T>::Matches<Class, MemberFunction>` reached through the
`Unbind` lambda (SignalBus.hpp lines 57-65): the `dynamic_cast` to
`DelegateHandle<EventToUnbind>` must succeed (same event type), else the
lambda returns `false`; otherwise it defers to `Delegate::Matches`. -/
def Handle.removePred (h : Handle) (ty cls mem instPtr : Nat) : Bool :=
  h.eventType == ty && h.delegate.MatchesQ cls mem instPtr

/-- Association-list lookup, modelling `m_map.find(key)`. -/
def mapFind (m : List (Nat × List Handle)) (k : Nat) : Option (List Handle) :=
  match m with
  | [] => none
  | (k2, v) :: rest => if k2 = k then some v else mapFind rest k

/-- Association-list update-or-insert, modelling writes through
`m_map[key]` (which default-inserts an empty vector when absent). -/
def mapSet (m : List (Nat × List Handle)) (k : Nat) (v : List Handle) :
    List (Nat × List Handle) :=
  match m with
  | [] => [(k, v)]
  | (k2, v2) :: rest =>
    if k2 = k then (k2, v) :: rest else (k2, v2) :: mapSet rest k v

/-- Association-list erase of the (unique) entry of key `k`, modelling
`m_map.erase(it)`. -/
def mapErase (m : List (Nat × List Handle)) (k : Nat) : List (Nat × List Handle) :=
  match m with
  | [] => []
  | (k2, v2) :: rest => if k2 = k then rest else (k2, v2) :: mapErase rest k

/-- The `SignalBus` (SignalBus.hpp lines 10-78): its registry
`m_map : unordered_map<type_index, vector<unique_ptr<IDelegateHandle>>>`. -/
structure SignalBus where
  m_map : List (Nat × List Handle)
  deriving DecidableEq, Repr

/-- A default-constructed bus: empty registry. -/
def emptyBus : SignalBus := ⟨[]⟩

/-- The handle sequence currently stored for event type `ty` (empty when the
key is absent). -/
def handlesFor (b : SignalBus) (ty : Nat) : List Handle :=
  (mapFind b.m_map ty).getD []

/-- Errors `Emit` can surface: a `BadDelegateCall` escaping a handle, or the
undefined behaviour of calling through the null result of a failed
`dynamic_cast` (SignalBus.hpp lines 21-22). -/
inductive EmitError where
  | badDelegateCall : EmitError
  | nullCastCall : EmitError
  deriving DecidableEq, Repr

/-- The loop body of `SignalBus::Emit` over one handle sequence
(SignalBus.hpp lines 19-23): each element is `dynamic_cast` to
`DelegateHandle<EventToEmit>` (failure makes the subsequent call undefined,
modelled as `nullCastCall`), then `casted->Emit(data)` invokes the wrapped
delegate; a thrown exception aborts the remaining iteration. -/
def emitList {A : Type} (ty : Nat) (arg : A) :
    List Handle → Except EmitError (List (Invocation A))
  | [] => Except.ok []
  | h :: rest =>
    if h.eventType = ty then
      match h.delegate.callOp arg with
      | Except.error _ => Except.error EmitError.badDelegateCall
      | Except.ok inv =>
        match emitList ty arg rest with
        | Except.error e => Except.error e
        | Except.ok invs => Except.ok (inv :: invs)
    else Except.error EmitError.nullCastCall

/-- `SignalBus::Emit<EventToEmit>` (SignalBus.hpp lines 16-24):
`m_map[typeid(EventToEmit)]` default-inserts an empty vector when the key is
absent, then the loop dispatches to every handle in sequence order. Returns
the resulting registry state and the ordered invocation trace. -/
def SignalBus.EmitOp {A : Type} (b : SignalBus) (ty : Nat) (arg : A) :
    Except EmitError (SignalBus × List (Invocation A)) :=
  let b2 : SignalBus :=
    match mapFind b.m_map ty with
    | some _ => b
    | none => ⟨mapSet b.m_map ty []⟩
  match emitList ty arg (handlesFor b ty) with
  | Except.error e => Except.error e
  | Except.ok invs => Except.ok (b2, invs)

/-- `SignalBus::Bind<EventToBindInto, ClassToBind, MemberFunction>(instance)`
(SignalBus.hpp lines 31-39): default-constructs a `Delegate`, binds the
non-const member, wraps it in a `DelegateHandle<EventToBindInto>` and appends
it to `m_map[typeid(EventToBindInto)]`. -/
def SignalBus.BindOp (b : SignalBus) (ty cls mem instPtr : Nat) : SignalBus :=
  let d := Delegate.BindMember {} cls mem instPtr
  let old := handlesFor b ty
  ⟨mapSet b.m_map ty (old ++ [⟨ty, d⟩])⟩

/-- `SignalBus::Unbind<EventToUnbind, ClassToUnbind, MemberFunction>(instance)`
(SignalBus.hpp lines 46-72): when the key is absent, return; otherwise
erase-remove every handle whose `removePred` holds, THEN — as written in the
source — erase the whole map entry when the remaining sequence is NON-empty
(`if (!it->second.empty()) m_map.erase(it);`), keeping the (empty) entry
otherwise. -/
def SignalBus.UnbindOp (b : SignalBus) (ty cls mem instPtr : Nat) : SignalBus :=
  match mapFind b.m_map ty with
  | none => b
  | some hs =>
    let kept := hs.filter (fun h => !(h.removePred ty cls mem instPtr))
    if kept.isEmpty then ⟨mapSet b.m_map ty kept⟩
    else ⟨mapErase b.m_map ty⟩

/-- Well-formedness of a bus state, as established by the public API: registry
keys are unique (an `unordered_map` invariant), every stored handle's
`DelegateHandle<T>` type parameter equals its key (so the `dynamic_cast`s
succeed), and every stored delegate is bound. -/
def SignalBus.WF (b : SignalBus) : Prop :=
  (b.m_map.map Prod.fst).Nodup ∧
  ∀ p ∈ b.m_map, ∀ h ∈ p.2, h.eventType = p.1 ∧ h.delegate.m_stub ≠ StubId.noStub

/-- Number of handles in a sequence that `Unbind` for the given
(event type, class, member, instance) would remove. -/
def matchCount (hs : List Handle) (ty cls mem instPtr : Nat) : Nat :=
  (hs.filter (fun h => h.removePred ty cls mem instPtr)).length

/-- The argument value carried by an invocation. -/
def Invocation.argOf {A : Type} : Invocation A → A
  | Invocation.freeCall _ a => a
  | Invocation.constMemberCall _ _ _ a => a
  | Invocation.memberCall _ _ _ a => a

/-- The registry state after `SignalBus::Emit` for event type `ty`: unchanged
when the key exists, otherwise with an empty sequence default-inserted by
`operator[]`. -/
def busAfterEmit (b : SignalBus) (ty : Nat) : SignalBus :=
  match mapFind b.m_map ty with
  | some _ => b
  | none => ⟨mapSet b.m_map ty []⟩

/-- The invocation trace `SignalBus::Emit` produces for a well-formed bus:
every stored handle of the event type dispatches, in sequence order. -/
def busTrace {A : Type} (b : SignalBus) (ty : Nat) (arg : A) : List (Invocation A) :=
  (handlesFor b ty).filterMap (fun h => (h.delegate.callOp arg).toOption)

instance decEqExcept {E A : Type} [DecidableEq E] [DecidableEq A] :
    DecidableEq (Except E A) := fun x y =>
  match x, y with
  | Except.ok a, Except.ok b =>
    if h : a = b then isTrue (congrArg Except.ok h)
    else isFalse (fun hx => h (Except.ok.inj hx))
  | Except.error a, Except.error b =>
    if h : a = b then isTrue (congrArg Except.error h)
    else isFalse (fun hx => h (Except.error.inj hx))
  | Except.ok _, Except.error _ => isFalse (fun hx => Except.noConfusion hx)
  | Except.error _, Except.ok _ => isFalse (fun hx => Except.noConfusion hx)

instance decWF (b : SignalBus) : Decidable b.WF :=
  inferInstanceAs (Decidable ((b.m_map.map Prod.fst).Nodup ∧
    ∀ p ∈ b.m_map, ∀ h ∈ p.2, h.eventType = p.1 ∧ h.delegate.m_stub ≠ StubId.noStub))

theorem mapFind_eq_none_iff (m : List (Nat × List Handle)) (k : Nat) :
    mapFind m k = none ↔ k ∉ m.map Prod.fst := by
  induction m with
  | nil => simp [mapFind]
  | cons p rest ih =>
    obtain ⟨k2, v2⟩ := p
    by_cases hk : k2 = k
    · subst hk
      simp [mapFind]
    · simp [mapFind, hk, ih, Ne.symm hk]

theorem mapFind_mem (m : List (Nat × List Handle)) (k : Nat) (v : List Handle)
    (h : mapFind m k = some v) : (k, v) ∈ m := by
  induction m with
  | nil => simp [mapFind] at h
  | cons p rest ih =>
    obtain ⟨k2, v2⟩ := p
    by_cases hk : k2 = k
    · subst hk
      simp [mapFind] at h
      simp [h]
    · simp [mapFind, hk] at h
      exact List.mem_cons_of_mem _ (ih h)

theorem mapFind_mapSet_self (m : List (Nat × List Handle)) (k : Nat) (v : List Handle) :
    mapFind (mapSet m k v) k = some v := by
  induction m with
  | nil => simp [mapFind, mapSet]
  | cons p rest ih =>
    obtain ⟨k2, v2⟩ := p
    by_cases hk : k2 = k
    · simp [mapSet, mapFind, hk]
    · simp [mapSet, mapFind, hk, ih]

theorem mapFind_mapSet_ne (m : List (Nat × List Handle)) (k v k2)
    (h : k2 ≠ k) : mapFind (mapSet m k v) k2 = mapFind m k2 := by
  induction m with
  | nil => simp [mapFind, mapSet, Ne.symm h]
  | cons p rest ih =>
    obtain ⟨k3, v3⟩ := p
    by_cases hk : k3 = k
    · subst hk
      simp [mapSet, mapFind, Ne.symm h]
    · by_cases hk2 : k3 = k2
      · subst hk2
        simp [mapSet, mapFind, hk]
      · simp [mapSet, mapFind, hk, hk2, ih]

theorem mem_mapSet (m : List (Nat × List Handle)) (k : Nat) (v : List Handle)
    (p : Nat × List Handle) (hp : p ∈ mapSet m k v) : p ∈ m ∨ p = (k, v) := by
  induction m with
  | nil => simp [mapSet] at hp; simp [hp]
  | cons q rest ih =>
    obtain ⟨k2, v2⟩ := q
    by_cases hk : k2 = k
    · subst hk
      simp [mapSet] at hp
      rcases hp with h | h
      · right; simp [h]
      · left; exact List.mem_cons_of_mem _ h
    · simp [mapSet, hk] at hp
      rcases hp with h | h
      · left; simp [h]
      · rcases ih h with h2 | h2
        · left; exact List.mem_cons_of_mem _ h2
        · right; exact h2

theorem keys_mapSet (m : List (Nat × List Handle)) (k : Nat) (v : List Handle) :
    (mapSet m k v).map Prod.fst =
      if mapFind m k = none then m.map Prod.fst ++ [k] else m.map Prod.fst := by
  induction m with
  | nil => simp [mapSet, mapFind]
  | cons p rest ih =>
    obtain ⟨k2, v2⟩ := p
    by_cases hk : k2 = k
    · subst hk
      simp [mapSet, mapFind]
    · simp [mapSet, mapFind, hk, ih]
      by_cases hf : mapFind rest k = none <;> simp [hf]

theorem nodup_keys_mapSet (m : List (Nat × List Handle)) (k : Nat) (v : List Handle)
    (h : (m.map Prod.fst).Nodup) : ((mapSet m k v).map Prod.fst).Nodup := by
  rw [keys_mapSet]
  by_cases hf : mapFind m k = none
  · simp [hf]
    refine List.Nodup.append h (List.nodup_singleton k) ?_
    intro a ha hb
    simp at hb
    subst hb
    exact ((mapFind_eq_none_iff m a).mp hf) ha
  · simp [hf, h]

theorem mapErase_sublist (m : List (Nat × List Handle)) (k : Nat) :
    (mapErase m k).Sublist m := by
  induction m with
  | nil => simp [mapErase]
  | cons p rest ih =>
    obtain ⟨k2, v2⟩ := p
    by_cases hk : k2 = k
    · simp [mapErase, hk]
    · simp [mapErase, hk]
      exact ih

theorem nodup_keys_mapErase (m : List (Nat × List Handle)) (k : Nat)
    (h : (m.map Prod.fst).Nodup) : ((mapErase m k).map Prod.fst).Nodup :=
  ((mapErase_sublist m k).map Prod.fst).nodup h

theorem mem_mapErase (m : List (Nat × List Handle)) (k : Nat)
    (p : Nat × List Handle) (hp : p ∈ mapErase m k) : p ∈ m :=
  (mapErase_sublist m k).mem hp

theorem mapFind_mapErase_self (m : List (Nat × List Handle)) (k : Nat)
    (h : (m.map Prod.fst).Nodup) : mapFind (mapErase m k) k = none := by
  induction m with
  | nil => simp [mapErase, mapFind]
  | cons p rest ih =>
    obtain ⟨k2, v2⟩ := p
    rw [List.map_cons, List.nodup_cons] at h
    by_cases hk : k2 = k
    · subst hk
      simp [mapErase]
      exact (mapFind_eq_none_iff rest k2).mpr h.1
    · simp [mapErase, hk, mapFind]
      exact ih h.2

theorem handlesFor_prop (b : SignalBus) (ty : Nat) (hWF : b.WF) :
    ∀ h ∈ handlesFor b ty, h.eventType = ty ∧ h.delegate.m_stub ≠ StubId.noStub := by
  intro h hh
  unfold handlesFor at hh
  cases hf : mapFind b.m_map ty with
  | none => rw [hf] at hh; simp at hh
  | some hs =>
    rw [hf] at hh
    simp at hh
    exact hWF.2 (ty, hs) (mapFind_mem _ _ _ hf) h hh

theorem callOp_ok {A : Type} (d : Delegate) (arg : A)
    (h : d.m_stub ≠ StubId.noStub) : ∃ inv, d.callOp arg = Except.ok inv := by
  cases hst : d.m_stub with
  | noStub => exact absurd hst h
  | freeFn f => exact ⟨Invocation.freeCall f arg, by simp [Delegate.callOp, hst]⟩
  | constMember c m =>
    exact ⟨Invocation.constMemberCall c m d.m_instance arg, by simp [Delegate.callOp, hst]⟩
  | member c m =>
    exact ⟨Invocation.memberCall c m d.m_instance arg, by simp [Delegate.callOp, hst]⟩

theorem emitList_eq {A : Type} (ty : Nat) (arg : A) (hs : List Handle)
    (hyp : ∀ h ∈ hs, h.eventType = ty ∧ h.delegate.m_stub ≠ StubId.noStub) :
    emitList ty arg hs =
      Except.ok (hs.filterMap (fun h => (h.delegate.callOp arg).toOption)) := by
  induction hs with
  | nil => rfl
  | cons h rest ih =>
    have h1 := hyp h (List.mem_cons_self _ _)
    have hrest := fun h2 hm => hyp h2 (List.mem_cons_of_mem h hm)
    obtain ⟨inv, hinv⟩ := callOp_ok h.delegate arg h1.2
    simp [emitList, h1.1, hinv, ih hrest, List.filterMap_cons, Except.toOption]

theorem EmitOp_eq_of_WF {A : Type} (b : SignalBus) (ty : Nat) (arg : A)
    (hWF : b.WF) :
    b.EmitOp ty arg = Except.ok (busAfterEmit b ty, busTrace b ty arg) := by
  unfold SignalBus.EmitOp busAfterEmit busTrace
  rw [emitList_eq ty arg _ (handlesFor_prop b ty hWF)]

theorem WF_emptyBus : emptyBus.WF := by
  constructor
  · simp [emptyBus]
  · intro p hp
    simp [emptyBus] at hp

theorem WF_bindOp (b : SignalBus) (ty cls mem i : Nat) (hWF : b.WF) :
    (b.BindOp ty cls mem i).WF := by
  constructor
  · exact nodup_keys_mapSet _ _ _ hWF.1
  · intro p hp h hh
    simp only [SignalBus.BindOp] at hp
    rcases mem_mapSet _ _ _ _ hp with hmem | heq
    · exact hWF.2 p hmem h hh
    · subst heq
      simp only at hh
      rcases List.mem_append.mp hh with hold | hnew
      · exact handlesFor_prop b ty hWF h hold
      · simp at hnew
        subst hnew
        exact ⟨rfl, by simp [Delegate.BindMember]⟩

theorem WF_unbindOp (b : SignalBus) (ty cls mem i : Nat) (hWF : b.WF) :
    (b.UnbindOp ty cls mem i).WF := by
  unfold SignalBus.UnbindOp
  cases hf : mapFind b.m_map ty with
  | none => exact hWF
  | some hs =>
    simp only
    by_cases hempty : (hs.filter (fun h => !(h.removePred ty cls mem i))).isEmpty
    · simp only [hempty, if_pos]
      constructor
      · exact nodup_keys_mapSet _ _ _ hWF.1
      · intro p hp h hh
        rcases mem_mapSet _ _ _ _ hp with hmem | heq
        · exact hWF.2 p hmem h hh
        · subst heq
          have hsub : h ∈ hs := List.mem_of_mem_filter hh
          have := hWF.2 (ty, hs) (mapFind_mem _ _ _ hf) h hsub
          exact this
    · simp only [hempty, if_neg, Bool.not_eq_true]
      exact ⟨nodup_keys_mapErase _ _ hWF.1,
        fun p hp h hh => hWF.2 p (mem_mapErase _ _ _ hp) h hh⟩

theorem handlesFor_bindOp_self (b : SignalBus) (ty cls mem i : Nat) :
    handlesFor (b.BindOp ty cls mem i) ty =
      handlesFor b ty ++ [⟨ty, Delegate.BindMember {} cls mem i⟩] := by
  simp [SignalBus.BindOp, handlesFor, mapFind_mapSet_self]

theorem handlesFor_unbindOp_self (b : SignalBus) (ty cls mem i : Nat)
    (hnd : (b.m_map.map Prod.fst).Nodup) :
    handlesFor (b.UnbindOp ty cls mem i) ty = [] := by
  unfold SignalBus.UnbindOp
  cases hf : mapFind b.m_map ty with
  | none =>
    unfold handlesFor
    rw [hf]
    rfl
  | some hs =>
    simp only
    by_cases hempty : (hs.filter (fun h => !(h.removePred ty cls mem i))).isEmpty
    · simp only [hempty, if_pos]
      unfold handlesFor
      have hk := List.isEmpty_iff.mp hempty
      simp [mapFind_mapSet_self, hk]
    · simp only [hempty, if_neg, Bool.not_eq_true]
      unfold handlesFor
      simp [mapFind_mapErase_self _ _ hnd]

theorem argOf_trace {A : Type} (v : A) (hs : List Handle) :
    ∀ inv ∈ hs.filterMap (fun h => (h.delegate.callOp v).toOption), inv.argOf = v := by
  intro inv hinv
  rw [List.mem_filterMap] at hinv
  obtain ⟨h, _, hsome⟩ := hinv
  cases hst : h.delegate.m_stub <;>
    simp [Delegate.callOp, hst, Except.toOption] at hsome <;>
    simp [← hsome, Invocation.argOf]

theorem count_trace (ty cls mem i v : Nat) (hs : List Handle)
    (hty : ∀ h ∈ hs, h.eventType = ty) :
    (hs.filterMap (fun h => (h.delegate.callOp v).toOption)).count
        (Invocation.memberCall cls mem i v) = matchCount hs ty cls mem i := by
  induction hs with
  | nil => rfl
  | cons h rest ih =>
    have h1 : h.eventType = ty := hty h (List.mem_cons_self _ _)
    have hrest := fun h2 hm => hty h2 (List.mem_cons_of_mem h hm)
    have ihr := ih hrest
    unfold matchCount at ihr ⊢
    cases hst : h.delegate.m_stub with
    | noStub =>
      have hopt : (h.delegate.callOp v).toOption = none := by
        simp [Delegate.callOp, hst, Except.toOption]
      have hpred : h.removePred ty cls mem i = false := by
        simp [Handle.removePred, Delegate.MatchesQ, hst]
      rw [List.filterMap_cons, List.filter_cons, hopt, hpred]
      simpa using ihr
    | freeFn f =>
      have hopt : (h.delegate.callOp v).toOption = some (Invocation.freeCall f v) := by
        simp [Delegate.callOp, hst, Except.toOption]
      have hpred : h.removePred ty cls mem i = false := by
        simp [Handle.removePred, Delegate.MatchesQ, hst]
      rw [List.filterMap_cons, List.filter_cons, hopt, hpred]
      simp [List.count_cons, ihr]
    | constMember c m =>
      have hopt : (h.delegate.callOp v).toOption =
          some (Invocation.constMemberCall c m h.delegate.m_instance v) := by
        simp [Delegate.callOp, hst, Except.toOption]
      have hpred : h.removePred ty cls mem i = false := by
        simp [Handle.removePred, Delegate.MatchesQ, hst]
      rw [List.filterMap_cons, List.filter_cons, hopt, hpred]
      simp [List.count_cons, ihr]
    | member c m =>
      by_cases hmatch : c = cls ∧ m = mem ∧ h.delegate.m_instance = i
      · obtain ⟨hc, hmm, hi⟩ := hmatch
        subst hc
        subst hmm
        have hopt : (h.delegate.callOp v).toOption =
            some (Invocation.memberCall c m i v) := by
          simp [Delegate.callOp, hst, Except.toOption, hi]
        have hpred : h.removePred ty c m i = true := by
          simp [Handle.removePred, Delegate.MatchesQ, hst, h1, hi]
        rw [List.filterMap_cons, List.filter_cons, hopt, hpred]
        simp [List.count_cons, ihr]
      · have hne : (Invocation.memberCall c m h.delegate.m_instance v : Invocation Nat) ≠
            Invocation.memberCall cls mem i v := by
          intro hEq
          rw [Invocation.memberCall.injEq] at hEq
          exact hmatch ⟨hEq.1, hEq.2.1, hEq.2.2.1⟩
        have hnp : h.removePred ty cls mem i = false := by
          simp [Handle.removePred, Delegate.MatchesQ, hst, h1]
          intro hi hc hmm
          exact absurd ⟨hc, hmm, hi⟩ hmatch
        have hopt : (h.delegate.callOp v).toOption =
            some (Invocation.memberCall c m h.delegate.m_instance v) := by
          simp [Delegate.callOp, hst, Except.toOption]
        rw [List.filterMap_cons, List.filter_cons, hopt, hnp]
        simp [List.count_cons, hne, ihr]

theorem matchCount_bindOp_self (b : SignalBus) (ty cls mem i : Nat) :
    matchCount (handlesFor (b.BindOp ty cls mem i) ty) ty cls mem i =
      matchCount (handlesFor b ty) ty cls mem i + 1 := by
  rw [handlesFor_bindOp_self]
  unfold matchCount
  rw [List.filter_append]
  simp [Handle.removePred, Delegate.MatchesQ, Delegate.BindMember]

theorem busTrace_bindOp_self (b : SignalBus) (ty cls mem i : Nat) (v : Nat) :
    busTrace (b.BindOp ty cls mem i) ty v =
      busTrace b ty v ++ [Invocation.memberCall cls mem i v] := by
  unfold busTrace
  rw [handlesFor_bindOp_self, List.filterMap_append]
  simp [Delegate.callOp, Delegate.BindMember, Except.toOption]

/-- C1: the claim states the registry retains the per-type entry exactly when
its handle sequence is non-empty after removal, and erases it exactly when
empty. The code does the opposite (SignalBus.hpp lines 68-71,
`if (!it->second.empty()) m_map.erase(it);`): with two different member
functions of instance 1 bound for event type 0, unbinding one leaves a
non-empty sequence, yet the whole entry is erased; conversely when the
sequence becomes empty, the (empty) entry is retained. -/
theorem c1_unbind_erase_inverted :
    (handlesFor ((emptyBus.BindOp 0 0 0 1).BindOp 0 0 1 1) 0).filter
        (fun h => !(h.removePred 0 0 0 1)) ≠ [] ∧
    mapFind ((((emptyBus.BindOp 0 0 0 1).BindOp 0 0 1 1).UnbindOp 0 0 0 1)).m_map 0 =
      none ∧
    mapFind (((emptyBus.BindOp 0 0 0 1).UnbindOp 0 0 0 1)).m_map 0 = some [] := by
  decide

/-- C2: the claim states that `Unbind` for a never-bound pair is a no-op that
leaves every other subscription intact. On the code, with (class 0, member 0,
instance 1) bound for event type 0 and firing on `Emit`, an `Unbind` for the
never-bound pair (class 0, member 1, instance 1) removes no handle, leaves the
sequence non-empty, and therefore erases the whole per-type entry
(SignalBus.hpp lines 68-71): the surviving subscription no longer fires. -/
theorem c2_unbind_unbound_pair_destroys_entry :
    (emptyBus.BindOp 0 0 0 1).EmitOp 0 (5 : Nat) =
      Except.ok (emptyBus.BindOp 0 0 0 1, [Invocation.memberCall 0 0 1 5]) ∧
    ((emptyBus.BindOp 0 0 0 1).UnbindOp 0 0 1 1).m_map = [] ∧
    ((emptyBus.BindOp 0 0 0 1).UnbindOp 0 0 1 1).EmitOp 0 (5 : Nat) =
      Except.ok (⟨[(0, [])]⟩, []) := by
  decide

/-- C3: for a pair bound `k ≥ 1` times for an event type (k matching handles
in the registry), `Emit` of a value of that type succeeds and invokes the pair
exactly `k` times, every invocation in the trace carries exactly the emitted
value, and one further `Bind` of the pair raises the multiplicity to `k + 1`
(so one `Bind` gives one invocation per `Emit`, a duplicate `Bind` two). -/
theorem c3_emit_multiplicity (b : SignalBus) (ty cls mem i v k : Nat)
    (hWF : b.WF) (hk : matchCount (handlesFor b ty) ty cls mem i = k)
    (hpos : 1 ≤ k) :
    (∃ b2, b.EmitOp ty v = Except.ok (b2, busTrace b ty v)) ∧
    (busTrace b ty v).count (Invocation.memberCall cls mem i v) = k ∧
    (∀ inv ∈ busTrace b ty v, inv.argOf = v) ∧
    matchCount (handlesFor (b.BindOp ty cls mem i) ty) ty cls mem i = k + 1 := by
  refine ⟨⟨busAfterEmit b ty, EmitOp_eq_of_WF b ty v hWF⟩, ?_, argOf_trace v _, ?_⟩
  · unfold busTrace
    rw [count_trace ty cls mem i v _ (fun h hh => (handlesFor_prop b ty hWF h hh).1)]
    exact hk
  · rw [matchCount_bindOp_self, hk]

/-- Witness for C3 at a concrete input: the pair (class 0, member 0,
instance 1) bound twice for event type 0, emitted value 5, multiplicity 2. -/
theorem c3_emit_multiplicity_witness :
    (∃ b2, ((emptyBus.BindOp 0 0 0 1).BindOp 0 0 0 1).EmitOp 0 (5 : Nat) =
      Except.ok (b2, busTrace ((emptyBus.BindOp 0 0 0 1).BindOp 0 0 0 1) 0 5)) ∧
    (busTrace ((emptyBus.BindOp 0 0 0 1).BindOp 0 0 0 1) 0 5).count
        (Invocation.memberCall 0 0 1 5) = 2 ∧
    (∀ inv ∈ busTrace ((emptyBus.BindOp 0 0 0 1).BindOp 0 0 0 1) 0 5,
      inv.argOf = 5) ∧
    matchCount
        (handlesFor ((((emptyBus.BindOp 0 0 0 1).BindOp 0 0 0 1).BindOp 0 0 0 1)) 0)
        0 0 0 1 = 2 + 1 :=
  c3_emit_multiplicity ((emptyBus.BindOp 0 0 0 1).BindOp 0 0 0 1) 0 0 0 1 5 2
    (by decide) (by decide) (by decide)

/-- C4, counterexample to the claim as stated: emitting an event of a type
with zero bound handlers on an empty bus returns normally and invokes no
handler, but does NOT leave the registry unchanged: `m_map[typeid(E)]`
default-inserts an empty sequence for the type. -/
theorem c4_registry_changed_counterexample :
    emptyBus.EmitOp 0 (7 : Nat) = Except.ok (⟨[(0, [])]⟩, []) ∧
    (⟨[(0, [])]⟩ : SignalBus) ≠ emptyBus := by
  decide

/-- C4 as amended: for an event type with zero bound handlers, `Emit` returns
normally, raises no error and invokes no handler; every per-type handle
sequence is left unchanged; the registry itself is unchanged when an entry
exists for the type, and gains an empty entry for the type when none exists. -/
theorem c4_emit_zero_handlers {A : Type} (b : SignalBus) (ty : Nat) (v : A)
    (hz : handlesFor b ty = []) :
    b.EmitOp ty v = Except.ok (busAfterEmit b ty, []) ∧
    (∀ k, handlesFor (busAfterEmit b ty) k = handlesFor b k) ∧
    (mapFind b.m_map ty = none → (busAfterEmit b ty).m_map = mapSet b.m_map ty []) ∧
    (∀ hs, mapFind b.m_map ty = some hs → busAfterEmit b ty = b) := by
  have h1 : emitList ty v (handlesFor b ty) = Except.ok ([] : List (Invocation A)) := by
    rw [hz]
    rfl
  refine ⟨?_, ?_, ?_, ?_⟩
  · unfold SignalBus.EmitOp busAfterEmit
    rw [h1]
  · intro k
    unfold busAfterEmit
    cases hf : mapFind b.m_map ty with
    | some hs => rfl
    | none =>
      unfold handlesFor
      by_cases hk : k = ty
      · subst hk
        simp only [mapFind_mapSet_self]
        unfold handlesFor at hz
        rw [hf] at hz ⊢
        simpa using hz.symm
      · rw [mapFind_mapSet_ne _ _ _ _ hk]
  · intro hf
    unfold busAfterEmit
    rw [hf]
  · intro hs hf
    unfold busAfterEmit
    rw [hf]

/-- Witness for C4 (amended) at a concrete input: the empty bus, event type 0,
emitted value 7. -/
theorem c4_emit_zero_handlers_witness :
    emptyBus.EmitOp 0 (7 : Nat) = Except.ok (busAfterEmit emptyBus 0, []) ∧
    (∀ k, handlesFor (busAfterEmit emptyBus 0) k = handlesFor emptyBus k) ∧
    (mapFind emptyBus.m_map 0 = none →
      (busAfterEmit emptyBus 0).m_map = mapSet emptyBus.m_map 0 []) ∧
    (∀ hs, mapFind emptyBus.m_map 0 = some hs → busAfterEmit emptyBus 0 = emptyBus) :=
  c4_emit_zero_handlers emptyBus 0 (7 : Nat) (by decide)

/-- C5: after one `Unbind` for a pair (however many times it was bound), a
subsequent `Emit` of that event type succeeds and its trace contains no
invocation of that (class, member, instance) pair with any value. -/
theorem c5_unbind_prunes_all (b : SignalBus) (ty cls mem i v : Nat)
    (hWF : b.WF) :
    (b.UnbindOp ty cls mem i).EmitOp ty v =
      Except.ok (busAfterEmit (b.UnbindOp ty cls mem i) ty,
        busTrace (b.UnbindOp ty cls mem i) ty v) ∧
    ∀ w, Invocation.memberCall cls mem i w ∉ busTrace (b.UnbindOp ty cls mem i) ty v := by
  have hWF2 := WF_unbindOp b ty cls mem i hWF
  have hz := handlesFor_unbindOp_self b ty cls mem i hWF.1
  refine ⟨EmitOp_eq_of_WF _ ty v hWF2, ?_⟩
  intro w
  unfold busTrace
  rw [hz]
  simp

/-- Witness for C5 at a concrete input: (class 0, member 0, instance 1) bound
twice for event type 0, then unbound once; emit value 5. -/
theorem c5_unbind_prunes_all_witness :
    (((emptyBus.BindOp 0 0 0 1).BindOp 0 0 0 1).UnbindOp 0 0 0 1).EmitOp 0 (5 : Nat) =
      Except.ok
        (busAfterEmit ((((emptyBus.BindOp 0 0 0 1).BindOp 0 0 0 1)).UnbindOp 0 0 0 1) 0,
        busTrace ((((emptyBus.BindOp 0 0 0 1).BindOp 0 0 0 1)).UnbindOp 0 0 0 1) 0 5) ∧
    ∀ w, Invocation.memberCall 0 0 1 w ∉
      busTrace ((((emptyBus.BindOp 0 0 0 1).BindOp 0 0 0 1)).UnbindOp 0 0 0 1) 0 5 :=
  c5_unbind_prunes_all ((emptyBus.BindOp 0 0 0 1).BindOp 0 0 0 1) 0 0 0 1 5 (by decide)

/-- C6: delivery order equals registration order: binding handlers A, B, C (in
that order) for one event type and then emitting dispatches to the previously
registered handlers in their stored order, followed by A, then B, then C. -/
theorem c6_delivery_order (b : SignalBus) (ty cA mA iA cB mB iB cC mC iC v : Nat)
    (hWF : b.WF) :
    (((b.BindOp ty cA mA iA).BindOp ty cB mB iB).BindOp ty cC mC iC).EmitOp ty v =
      Except.ok
        (busAfterEmit (((b.BindOp ty cA mA iA).BindOp ty cB mB iB).BindOp ty cC mC iC) ty,
        busTrace b ty v ++
          [Invocation.memberCall cA mA iA v, Invocation.memberCall cB mB iB v,
           Invocation.memberCall cC mC iC v]) := by
  have w1 := WF_bindOp b ty cA mA iA hWF
  have w2 := WF_bindOp _ ty cB mB iB w1
  have w3 := WF_bindOp _ ty cC mC iC w2
  rw [EmitOp_eq_of_WF _ ty v w3]
  rw [busTrace_bindOp_self, busTrace_bindOp_self, busTrace_bindOp_self]
  simp

/-- Witness for C6 at a concrete input: three distinct handlers bound in order
A = (0,0,1), B = (0,0,2), C = (0,1,1) for event type 0, emit value 9. -/
theorem c6_delivery_order_witness :
    (((emptyBus.BindOp 0 0 0 1).BindOp 0 0 0 2).BindOp 0 0 1 1).EmitOp 0 (9 : Nat) =
      Except.ok
        (busAfterEmit (((emptyBus.BindOp 0 0 0 1).BindOp 0 0 0 2).BindOp 0 0 1 1) 0,
        busTrace emptyBus 0 9 ++
          [Invocation.memberCall 0 0 1 9, Invocation.memberCall 0 0 2 9,
           Invocation.memberCall 0 1 1 9]) :=
  c6_delivery_order emptyBus 0 0 0 1 0 0 2 0 1 1 9 (by decide)

/-- C7: the delegate-level `Matches` semantics hold (same instance and same
(class, member) pair match; a different member function or a different
instance does not), and `Matches` selects exactly instance 1's handle when
instances 1 and 2 of class 0 are both bound to member 0 for event type 0 — yet
after `Unbind` of instance 1, instance 2's subscription is also destroyed
(SignalBus.hpp lines 68-71 erase the whole non-empty entry) and no longer
fires on `Emit`, contradicting independent addressability. -/
theorem c7_matches_but_unbind_not_independent :
    ((Delegate.BindMember {} 0 0 1).MatchesQ 0 0 1 = true) ∧
    ((Delegate.BindMember {} 0 0 2).MatchesQ 0 0 1 = false) ∧
    ((Delegate.BindMember {} 0 1 1).MatchesQ 0 0 1 = false) ∧
    (matchCount (handlesFor ((emptyBus.BindOp 0 0 0 1).BindOp 0 0 0 2) 0) 0 0 0 1 = 1) ∧
    (handlesFor (((emptyBus.BindOp 0 0 0 1).BindOp 0 0 0 2).UnbindOp 0 0 0 1) 0 = []) ∧
    ((((emptyBus.BindOp 0 0 0 1).BindOp 0 0 0 2).UnbindOp 0 0 0 1).EmitOp 0 (5 : Nat) =
      Except.ok (⟨[(0, [])]⟩, [])) := by
  decide

/-- C8: invoking a default-constructed (never bound) delegate raises
`BadDelegateCall` — the single error kind of the component — and invoking a
delegate after any of the three `Bind` overloads never does. -/
theorem c8_unbound_call_error (v : Nat) :
    (({} : Delegate).callOp v = Except.error DelegateError.badDelegateCall) ∧
    ∀ (d : Delegate) (a : BindAction), ∃ inv, (applyBind d a).callOp v = Except.ok inv := by
  refine ⟨rfl, ?_⟩
  intro d a
  cases a with
  | freeFn f => exact ⟨Invocation.freeCall f v, rfl⟩
  | constMember c m i => exact ⟨Invocation.constMemberCall c m i v, rfl⟩
  | member c m i => exact ⟨Invocation.memberCall c m i v, rfl⟩

/-- C9: rebinding overwrites: after a second `Bind` (any overload, to any
target), invocation dispatches exclusively to the most recently bound target —
the result does not depend on the initial delegate state or the first bind. -/
theorem c9_rebind_overwrites (d : Delegate) (a1 a2 : BindAction) (v : Nat) :
    (applyBind (applyBind d a1) a2).callOp v = Except.ok (targetOf a2 v) := by
  cases a2 <;> rfl

/-- C10: for every instance pointer (including the null pointer, `0`) and
every (class, member) pair, `Matches` on a default-constructed, never-bound
delegate returns false, so the `Unbind` removal predicate never selects a
handle wrapping an unbound delegate. -/
theorem c10_default_never_matches (cls mem instPtr : Nat) :
    (({} : Delegate).MatchesQ cls mem instPtr = false) ∧
    ∀ ty ty2 : Nat, (⟨ty, {}⟩ : Handle).removePred ty2 cls mem instPtr = false := by
  constructor
  · simp [Delegate.MatchesQ]
  · intro ty ty2
    simp [Handle.removePred, Delegate.MatchesQ]

end FluczakSignalBus
